import Mathlib

/-!
Verification of the worker-ai-chat agent core (`src/chatViewProvider.ts`, richer
variant). The TypeScript source is shallowly embedded: strings are `List Char`,
the workspace filesystem is an association list from relative paths to file
contents, and the agent loop is a fuel-bounded recursion (the fuel is the
source's `maxLoops`). All definitions are executable and structurally
recursive so that concrete instances evaluate by `decide` / `rfl`.
-/

set_option maxRecDepth 8000

/-- Strings from the source are modelled as lists of characters. -/
abbrev Str := List Char

/-! ## Generic string toolkit (prefix test, first-occurrence search) -/

/-- `occursIn pat s` is `true` iff `pat` occurs as a contiguous substring of
`s` (the JS `String.prototype.includes`). -/
def occursIn (pat : Str) : Str → Bool
  | [] => pat.isEmpty
  | c :: cs => pat.isPrefixOf (c :: cs) || occursIn pat cs

/-- Split `s` at the first (leftmost) occurrence of `pat`: returns the part
strictly before the occurrence and the part strictly after it.  This is the
semantics of a lazy regex body `([\s\S]*?)pat` and of the JS first-occurrence
`String.prototype.replace` with a string pattern. -/
def splitAtFirst (pat : Str) : Str → Option (Str × Str)
  | [] => if pat.isEmpty then some ([], []) else none
  | c :: cs =>
    if pat.isPrefixOf (c :: cs) then some ([], (c :: cs).drop pat.length)
    else
      match splitAtFirst pat cs with
      | some (pre, rest) => some (c :: pre, rest)
      | none => none

/-- Consume the characters before the first double quote and the quote itself;
`none` when no quote follows.  This is the greedy `([^"]+)"` of the tool regex
(the nonempty requirement is checked by the caller). -/
def takeToQuote : Str → Option (Str × Str)
  | [] => none
  | c :: cs =>
    if c = '"' then some ([], cs)
    else
      match takeToQuote cs with
      | some (k, r) => some (c :: k, r)
      | none => none

/-- Strip a literal prefix, returning the remainder. -/
def stripPre (lit cs : Str) : Option Str :=
  if lit.isPrefixOf cs then some (cs.drop lit.length) else none

/-- Strict lexicographic (code-point) order on strings; for the uniform
ISO-timestamp backup suffixes this agrees with JS `localeCompare`. -/
def lexLt : Str → Str → Bool
  | [], [] => false
  | [], _ :: _ => true
  | _ :: _, [] => false
  | a :: as, b :: bs =>
    if a.toNat < b.toNat then true
    else if a = b then lexLt as bs
    else false

/-- The JS `String.prototype.trim`: drop whitespace from both ends. -/
def jsTrim (s : Str) : Str :=
  ((s.dropWhile Char.isWhitespace).reverse.dropWhile Char.isWhitespace).reverse

/-- First path component: everything before the first `/`.  A file
`dir/rest` shows up in the root directory listing only as the entry `dir`. -/
def topName (p : Str) : Str := p.takeWhile (fun c => c ≠ '/')

/-! ## Tool-directive parser

The source parses model replies with the global regex

  `/<tool code="([^"]+)"(?: path="([^"]+)")?>([\s\S]*?)<\/tool>/g`

and produces the narrative text by `answer.replace(toolRegex, '').trim()`. -/

/-- The literal start marker `<tool code="`. -/
def startLit : Str := "<tool code=\"".data

/-- The literal optional path marker ` path="`. -/
def pathLit : Str := " path=\"".data

/-- The literal end marker `</tool>`. -/
def endLit : Str := "</tool>".data

/-- A parsed tool directive: capture groups 1 (kind), 2 (optional path) and
3 (body) of the tool regex. -/
structure ToolDir where
  kind : Str
  path : Option Str
  body : Str
deriving DecidableEq

/-- The exact substring of the reply matched by the tool regex for a
directive (start marker, kind, optional path attribute, `>`, body, end
marker). -/
def dirText (d : ToolDir) : Str :=
  startLit ++ d.kind ++ '"' ::
    ((match d.path with
      | some p => pathLit ++ p ++ [ '"' ]
      | none => []) ++ '>' :: (d.body ++ endLit))

/-- Match `>` then the lazy body up to the first `</tool>`. -/
def finishTool (kind : Str) (path : Option Str) (r : Str) : Option (ToolDir × Str) :=
  match r with
  | [] => none
  | c :: r2 =>
    if c = '>' then
      match splitAtFirst endLit r2 with
      | some (body, rest) => some (⟨kind, path, body⟩, rest)
      | none => none
    else none

/-- Try to match the tool regex at the very start of `cs`.  On success,
returns the directive and the remainder of the text after the match.  The
optional ` path="([^"]+)"` group is attempted first and dropped on failure,
exactly like the regex engine's backtracking. -/
def matchToolAt (cs : Str) : Option (ToolDir × Str) :=
  match stripPre startLit cs with
  | none => none
  | some r1 =>
    match takeToQuote r1 with
    | none => none
    | some (kind, r2) =>
      if kind.isEmpty then none
      else
        match stripPre pathLit r2 with
        | some rp =>
          match takeToQuote rp with
          | some (path, r3) =>
            if path.isEmpty then finishTool kind none r2
            else
              match finishTool kind (some path) r3 with
              | some res => some res
              | none => finishTool kind none r2
          | none => finishTool kind none r2
        | none => finishTool kind none r2

/-- One left-to-right scan (fuelled; the fuel is the text length, which always
suffices).  Returns the directives in match order together with the unmatched
characters in order — the latter is exactly `answer.replace(toolRegex, '')`.
Scanning resumes after the end of each match (the regex `lastIndex`). -/
def scanGo : Nat → Str → List ToolDir × Str
  | 0, cs => ([], cs)
  | _ + 1, [] => ([], [])
  | n + 1, c :: cs =>
    match matchToolAt (c :: cs) with
    | some (d, rest) =>
      let r := scanGo n rest
      (d :: r.1, r.2)
    | none =>
      let r := scanGo n cs
      (r.1, c :: r.2)

/-- The tool-directive parser: directives in document order plus the
directive-stripped narrative (before trimming). -/
def scanTools (cs : Str) : List ToolDir × Str := scanGo cs.length cs

/-- Well-formedness of a directive block, as required by the tool regex for
the block to match as written: nonempty quote-free kind, nonempty quote-free
path when present, and a body that does not contain the end marker. -/
def wfDir (d : ToolDir) : Bool :=
  !d.kind.isEmpty && !(d.kind.contains '"') &&
    (match d.path with
     | some p => !p.isEmpty && !(p.contains '"')
     | none => true) &&
    !(occursIn endLit d.body)

/-- A model reply assembled from a leading narrative segment followed by
directive blocks each followed by a narrative segment. -/
def render (s0 : Str) (rest : List (ToolDir × Str)) : Str :=
  s0 ++ (rest.map (fun x => dirText x.1 ++ x.2)).flatten

/-- First match of a non-global lazy tagged-region regex
`/open([\s\S]*?)close/` (used for `<search>` and `<replace>`): body of the
first occurrence of `openTag` that is followed by a `closeTag`.  When the
first `openTag` occurrence has no following `closeTag`, no later occurrence
has one either, so this is exactly the regex result. -/
def matchTagged (openTag closeTag cs : Str) : Option Str :=
  match splitAtFirst openTag cs with
  | none => none
  | some (_, rest) =>
    match splitAtFirst closeTag rest with
    | none => none
    | some (body, _) => some body

/-- The JS `GetSubstitution` for a string search pattern (no capture groups):
`$$` is a literal dollar, `$&` the matched text, a dollar followed by a
backquote the text before the match, `$'` the text after the match; every
other `$`-sequence (including `$1`..`$9` and `$<`) is literal. -/
def getSubstitution (matched before after : Str) : Str → Str
  | [] => []
  | c :: rest =>
    if c = '$' then
      match rest with
      | [] => [ '$' ]
      | c2 :: r2 =>
        if c2 = '$' then '$' :: getSubstitution matched before after r2
        else if c2 = '&' then matched ++ getSubstitution matched before after r2
        else if c2 = Char.ofNat 96 then before ++ getSubstitution matched before after r2
        else if c2 = Char.ofNat 39 then after ++ getSubstitution matched before after r2
        else '$' :: getSubstitution matched before after (c2 :: r2)
    else c :: getSubstitution matched before after rest

/-- JS `s.replace(pat, repl)` with a string pattern: replace the first
occurrence of `pat`, applying `GetSubstitution` to `repl`; `s` unchanged when
`pat` does not occur. -/
def jsReplaceFirst (s pat repl : Str) : Str :=
  match splitAtFirst pat s with
  | none => s
  | some (before, after) => before ++ getSubstitution pat before after repl ++ after

/-! ## Workspace gateway: filesystem model

The filesystem is an association list from root-relative paths to decoded
text contents.  `vscode.workspace.fs.writeFile` / `copy { overwrite: true }`
replace any existing entry.  Errors follow the spec's taxonomy; the source
throws `Error` objects whose messages interpolate the path, which the
embedding abstracts to the error constructor. -/

inductive ToolErr where
  | noWorkspace
  | accessDenied
  | malformedDirective
  | searchNotFound
  | noBackupFound
  | ioError
deriving DecidableEq

abbrev Fs := List (Str × Str)

/-- Content of the file at `p`, if any. -/
def fsGet : Fs → Str → Option Str
  | [], _ => none
  | e :: fs, p => if e.1 = p then some e.2 else fsGet fs p

/-- Overwrite-or-create the file at `p`. -/
def fsSet (fs : Fs) (p c : Str) : Fs :=
  fs.filter (fun e => e.1 ≠ p) ++ [(p, c)]

/-- The `_ignorePatterns` field of `ChatViewProvider`. -/
def ignorePatterns : List Str :=
  [ "node_modules".data, "vendor".data, ".git".data, "dist".data, "build".data,
    "out".data, "target".data, "bin".data, "obj".data, "lib".data,
    ".idea".data, ".vscode".data, ".env".data ]

/-- `relativePath.replace(/\\/g, '/')`. -/
def normalizePath (p : Str) : Str :=
  p.map (fun c => if c = '\\' then '/' else c)

/-- The deny check shared by `_writeFile` and `_readFile`:
`normalized.includes('/' + pat + '/') || normalized.startsWith(pat + '/')`
for some ignore pattern. -/
def isIgnored (p : Str) : Bool :=
  ignorePatterns.any (fun pat =>
    occursIn ( '/' :: (pat ++ [ '/' ])) (normalizePath p) ||
      (pat ++ [ '/' ]).isPrefixOf (normalizePath p))

/-- Backup file name: `relativePath + '.bak.' + timestamp`. -/
def bakName (p ts : Str) : Str := p ++ ".bak.".data ++ ts

/-- All backup entries for `p`: files whose path starts with `p + '.bak.'`. -/
def backups (fs : Fs) (p : Str) : Fs :=
  fs.filter (fun e => (p ++ ".bak.".data).isPrefixOf e.1)

/-- `_createBackup`: if `p` exists, copy it to `bakName p ts`; every failure
is swallowed.  `bakOk = false` models a failing `fs.copy` (the `catch (e) {}`
branch); a missing file falls into the same swallowed-error branch via the
failing `fs.stat`. -/
def createBackup (fs : Fs) (p ts : Str) (bakOk : Bool) : Fs :=
  match fsGet fs p with
  | some c => if bakOk then fsSet fs (bakName p ts) c else fs
  | none => fs

/-- `_writeFile`: workspace check, deny check, best-effort backup, then
overwrite.  (Opening the written document in an editor is presentation-side
and not modelled.) -/
def writeFile (ws : Bool) (fs : Fs) (p content ts : Str) (bakOk : Bool) :
    Except ToolErr Fs :=
  if ws = false then .error .noWorkspace
  else if isIgnored p then .error .accessDenied
  else .ok (fsSet (createBackup fs p ts bakOk) p content)

/-- `_readFile`: workspace check, deny check, then read (missing file: the
underlying `fs.readFile` throws, surfaced as `ioError`). -/
def readFile (ws : Bool) (fs : Fs) (p : Str) : Except ToolErr Str :=
  if ws = false then .error .noWorkspace
  else if isIgnored p then .error .accessDenied
  else
    match fsGet fs p with
    | some c => .ok c
    | none => .error .ioError

/-- The exclusion used by `_listFiles` (`findFiles` with glob
`**/{...pats}/**`): the file lies strictly below a directory whose name is an
ignore pattern. -/
def listExcluded (p : Str) : Bool :=
  ignorePatterns.any (fun pat => occursIn ( '/' :: (pat ++ [ '/' ])) ( '/' :: p))

/-- `_listFiles`: newline-joined relative paths of all non-excluded files. -/
def listFiles (ws : Bool) (fs : Fs) : Except ToolErr Str :=
  if ws = false then .error .noWorkspace
  else .ok (((fs.filter (fun e => !listExcluded e.1)).map (fun e => e.1)).intersperse [ '\n' ]).flatten

/-- The outcome of `cp.exec`'s callback: optional error (its `code` rendered
as text), stdout, stderr. -/
abbrev ExecOut := Option Str × Str × Str

/-- The callback body of `_runCommand`: combined stdout/stderr, prefixed by
the exit code when the callback reports an error; the promise always
resolves. -/
def combineOutput (r : ExecOut) : Str :=
  let output := r.2.1 ++ (if r.2.2.isEmpty then [] else "\nstderr:\n".data ++ r.2.2)
  match r.1 with
  | some code => "Exit Code: ".data ++ code ++ '\n' :: output
  | none => if output.isEmpty then "Done".data else output

/-- `_runCommand`: after the workspace check it always resolves with the
combined output (the callback never rejects the promise). -/
def runCommand (ws : Bool) (exec : Str → ExecOut) (cmd : Str) : Except ToolErr Str :=
  if ws = false then .error .noWorkspace
  else .ok (combineOutput (exec cmd))

/-- `fs.readDirectory(rootUri)`: the names of the *immediate* entries of the
workspace root — top-level files appear under their own name, nested files
only as their top-level directory. -/
def readDirRoot (fs : Fs) : List Str :=
  (fs.map (fun e => topName e.1)).dedup

/-- `baks.sort((a, b) => b[0].localeCompare(a[0]))[0]`: the lexicographically
greatest name, if any. -/
def latestBak : List Str → Option Str
  | [] => none
  | x :: xs =>
    match latestBak xs with
    | none => some x
    | some y => some (if lexLt x y then y else x)

/-- `_restoreFile`: filter the root-directory entries by the `p + '.bak.'`
prefix, pick the lexicographically greatest, copy it over the live file.
(Copying an entry that is a directory rather than a file is out of scope and
surfaced as `ioError`.) -/
def restoreFile (ws : Bool) (fs : Fs) (p : Str) : Except ToolErr Fs :=
  if ws = false then .error .noWorkspace
  else
    match latestBak ((readDirRoot fs).filter (fun n => (p ++ ".bak.".data).isPrefixOf n)) with
    | none => .error .noBackupFound
    | some b =>
      match fsGet fs b with
      | some c => .ok (fsSet fs p c)
      | none => .error .ioError

/-- `_replaceLines`: workspace check; parse the `<search>`/`<replace>`
regions (both required); read the file; require a literal occurrence of the
search text; back up (best effort); rewrite with the first occurrence
replaced via JS `String.replace`. -/
def replaceLines (ws : Bool) (fs : Fs) (p content ts : Str) (bakOk : Bool) :
    Except ToolErr Fs :=
  if ws = false then .error .noWorkspace
  else
    match matchTagged ( "<search>".data) ( "</search>".data) content,
        matchTagged ( "<replace>".data) ( "</replace>".data) content with
    | some search, some repl =>
      match fsGet fs p with
      | none => .error .ioError
      | some original =>
        if occursIn search original = false then .error .searchNotFound
        else .ok (fsSet (createBackup fs p ts bakOk) p (jsReplaceFirst original search repl))
    | _, _ => .error .malformedDirective

/-! ## Tool executor and agent loop -/

structure Msg where
  role : Str
  content : Str
deriving DecidableEq

/-- External collaborators of one turn: the model endpoint (a function of the
conversation history, through which the prompt is assembled), the process
table, the backup-timestamp clock, and whether a workspace is configured. -/
structure Env where
  model : List Msg → Str
  exec : Str → ExecOut
  ts : Nat → Str
  ws : Bool

inductive Outcome where
  | success : Str → Outcome
  | failure : ToolErr → Outcome
deriving DecidableEq

/-- The `try` block of the per-directive dispatch in `_handleMessage`: route
the directive to the matching gateway operation; a kind that matches none of
the six known kinds leaves `result = ''` and succeeds. -/
def dispatch (env : Env) (fs : Fs) (tsIdx : Nat) (d : ToolDir) :
    Except ToolErr (Fs × Str) :=
  if d.kind = "replace_lines".data then
    (replaceLines env.ws fs (d.path.getD []) d.body (env.ts tsIdx) true).map
      (fun fs' => (fs', "Successfully updated ".data ++ d.path.getD []))
  else if d.kind = "write_file".data then
    (writeFile env.ws fs (d.path.getD []) d.body (env.ts tsIdx) true).map
      (fun fs' => (fs', "Written to ".data ++ d.path.getD []))
  else if d.kind = "read_file".data then
    (readFile env.ws fs (d.path.getD [])).map (fun c => (fs, c))
  else if d.kind = "list_files".data then
    (listFiles env.ws fs).map (fun s => (fs, s))
  else if d.kind = "run_command".data then
    (runCommand env.ws env.exec (jsTrim d.body)).map (fun s => (fs, s))
  else if d.kind = "restore_file".data then
    (restoreFile env.ws fs (d.path.getD [])).map
      (fun fs' => (fs', "Restored from backup.".data))
  else .ok (fs, [])

/-- Execute one directive: a thrown error is caught at this boundary and the
filesystem is left as it was. -/
def execDirective (env : Env) (fs : Fs) (tsIdx : Nat) (d : ToolDir) : Fs × Outcome :=
  match dispatch env fs tsIdx d with
  | .ok r => (r.1, .success r.2)
  | .error e => (fs, .failure e)

/-- Abstract rendering of the source's thrown error messages (the source
interpolates the offending path into the text; the constructor identity is
what the spec's taxonomy names). -/
def errText : ToolErr → Str
  | .noWorkspace => "No workspace".data
  | .accessDenied => "Access denied".data
  | .malformedDirective => "Malformed replace_lines content.".data
  | .searchNotFound => "Search string not found".data
  | .noBackupFound => "No backups found".data
  | .ioError => "IO error".data

/-- The System message appended to history after a directive: `Tool Output
(<kind>):\n<result>` on success, `Error (<kind>): <message>` on failure. -/
def sysMsg (d : ToolDir) : Outcome → Msg
  | .success out => ⟨ "System".data, "Tool Output (".data ++ d.kind ++ "):\n".data ++ out⟩
  | .failure e => ⟨ "System".data, "Error (".data ++ d.kind ++ "): ".data ++ errText e⟩

/-- Execute the matched directives in match order, appending a System message
for each; one directive's failure does not abort the rest. -/
def execDirectives (env : Env) :
    List ToolDir → Fs → Nat → List Msg → Fs × Nat × List Msg
  | [], fs, tsIdx, hist => (fs, tsIdx, hist)
  | d :: ds, fs, tsIdx, hist =>
    let r := execDirective env fs tsIdx d
    execDirectives env ds r.1 (tsIdx + 1) (hist ++ [sysMsg d r.2])

/-- The `while (loopCount < maxLoops)` body of `_handleMessage`, with the
remaining iteration budget as fuel.  Per iteration: call the model on the
history-assembled prompt, append the reply as an Assistant message, parse it,
execute the directives, and loop unless the reply had no directives.  Returns
the filesystem, the history, and the number of iterations performed. -/
def agentLoop (env : Env) : Nat → Fs → List Msg → Nat → Fs × List Msg × Nat
  | 0, fs, hist, _ => (fs, hist, 0)
  | n + 1, fs, hist, tsIdx =>
    let answer := env.model hist
    let hist1 := hist ++ [⟨ "Assistant".data, answer⟩]
    let parsed := scanTools answer
    let r := execDirectives env parsed.1 fs tsIdx hist1
    if parsed.1.isEmpty then (r.1, r.2.2, 1)
    else
      let rec1 := agentLoop env n r.1 r.2.2 r.2.1
      (rec1.1, rec1.2.1, rec1.2.2 + 1)

/-- The source's hard cap on loop iterations. -/
def maxLoops : Nat := 10

/-- `_handleMessage` for one user turn: push the user message, then run the
agent loop with the `maxLoops` budget. -/
def handleMessage (env : Env) (fs : Fs) (hist : List Msg) (userMessage : Str) :
    Fs × List Msg × Nat :=
  agentLoop env maxLoops fs (hist ++ [⟨ "User".data, userMessage⟩]) 0

/-! ## Prefix and occurrence lemmas -/

theorem pre_iff (a : Str) : ∀ b : Str, a.isPrefixOf b = true ↔ ∃ t, b = a ++ t := by
  induction a with
  | nil => intro b; simp [List.isPrefixOf]
  | cons x xs ih =>
    intro b
    cases b with
    | nil => simp [List.isPrefixOf]
    | cons y ys =>
      simp only [List.isPrefixOf, Bool.and_eq_true, beq_iff_eq, ih ys, List.cons_append,
        List.cons.injEq]
      constructor
      · rintro ⟨rfl, t, rfl⟩; exact ⟨t, rfl, rfl⟩
      · rintro ⟨t, rfl, rfl⟩; exact ⟨rfl, t, rfl⟩

theorem pre_append (a t : Str) : a.isPrefixOf (a ++ t) = true :=
  (pre_iff a (a ++ t)).mpr ⟨t, rfl⟩

theorem pre_refl (a : Str) : a.isPrefixOf a = true :=
  (pre_iff a a).mpr ⟨[], by simp⟩

theorem pre_len {a b : Str} (h : a.isPrefixOf b = true) : a.length ≤ b.length := by
  obtain ⟨t, rfl⟩ := (pre_iff a b).mp h
  simp

theorem notPre_of_longer {a b : Str} (h : b.length < a.length) : a.isPrefixOf b = false := by
  cases hab : a.isPrefixOf b with
  | false => rfl
  | true => exact absurd (pre_len hab) (by omega)

theorem pre_trans {a b c : Str} (h1 : a.isPrefixOf b = true) (h2 : b.isPrefixOf c = true) :
    a.isPrefixOf c = true := by
  obtain ⟨t, rfl⟩ := (pre_iff a b).mp h1
  obtain ⟨u, rfl⟩ := (pre_iff _ c).mp h2
  exact (pre_iff a (a ++ t ++ u)).mpr ⟨t ++ u, by simp⟩

theorem pre_cancel (s a b : Str) : (s ++ a).isPrefixOf (s ++ b) = a.isPrefixOf b := by
  induction s with
  | nil => rfl
  | cons c cs ih => simp [List.isPrefixOf, ih]

theorem pre_antisymm {a b : Str} (h1 : a.isPrefixOf b = true) (h2 : b.length ≤ a.length) :
    a = b := by
  obtain ⟨t, rfl⟩ := (pre_iff a b).mp h1
  have : t = [] := by
    cases t with
    | nil => rfl
    | cons x xs => simp [List.length_append] at h2
  simp [this]

theorem pre_comparable {t : Str} : ∀ {a b : Str}, a.isPrefixOf t = true →
    b.isPrefixOf t = true → a.isPrefixOf b = true ∨ b.isPrefixOf a = true := by
  induction t with
  | nil =>
    intro a b ha hb
    obtain ⟨u, hu⟩ := (pre_iff a []).mp ha
    obtain ⟨v, hv⟩ := (pre_iff b []).mp hb
    rcases List.append_eq_nil.mp hu.symm with ⟨rfl, -⟩
    rcases List.append_eq_nil.mp hv.symm with ⟨rfl, -⟩
    simp [List.isPrefixOf]
  | cons c cs ih =>
    intro a b ha hb
    cases a with
    | nil => left; simp [List.isPrefixOf]
    | cons x xs =>
      cases b with
      | nil => right; simp [List.isPrefixOf]
      | cons y ys =>
        simp only [List.isPrefixOf, Bool.and_eq_true, beq_iff_eq] at ha hb ⊢
        obtain ⟨rfl, ha⟩ := ha
        obtain ⟨rfl, hb⟩ := hb
        rcases ih ha hb with h | h
        · exact Or.inl ⟨rfl, h⟩
        · exact Or.inr ⟨rfl, h⟩

theorem split_pre {a s t : Str} (h : a.isPrefixOf (s ++ t) = true) :
    a.isPrefixOf s = true ∨ s.isPrefixOf a = true := by
  induction s generalizing a with
  | nil => right; simp [List.isPrefixOf]
  | cons c cs ih =>
    cases a with
    | nil => left; simp [List.isPrefixOf]
    | cons x xs =>
      simp only [List.cons_append, List.isPrefixOf, Bool.and_eq_true, beq_iff_eq] at h ⊢
      obtain ⟨rfl, h⟩ := h
      rcases ih h with h' | h'
      · exact Or.inl ⟨rfl, h'⟩
      · exact Or.inr ⟨rfl, h'⟩

theorem occursIn_cons (pat : Str) (c : Char) (cs : Str) :
    occursIn pat (c :: cs) = (pat.isPrefixOf (c :: cs) || occursIn pat cs) := rfl

theorem occursIn_of_pre {pat s : Str} (hne : s ≠ []) (h : pat.isPrefixOf s = true) :
    occursIn pat s = true := by
  cases s with
  | nil => exact absurd rfl hne
  | cons c cs => simp [occursIn_cons, h]

theorem occursIn_eq_false_cons {pat : Str} {c : Char} {cs : Str}
    (h : occursIn pat (c :: cs) = false) :
    pat.isPrefixOf (c :: cs) = false ∧ occursIn pat cs = false := by
  rw [occursIn_cons] at h
  exact ⟨by cases hp : pat.isPrefixOf (c :: cs) <;> simp_all,
    by cases ho : occursIn pat cs <;> simp_all⟩

theorem occursIn_spec {pat : Str} : ∀ {s : Str}, occursIn pat s = true →
    ∃ u v, s = u ++ pat ++ v := by
  intro s
  induction s with
  | nil =>
    intro h
    simp only [occursIn, List.isEmpty_iff] at h
    exact ⟨[], [], by simp [h]⟩
  | cons c cs ih =>
    intro h
    rw [occursIn_cons, Bool.or_eq_true] at h
    rcases h with h | h
    · obtain ⟨t, ht⟩ := (pre_iff pat (c :: cs)).mp h
      exact ⟨[], t, by simp [ht]⟩
    · obtain ⟨u, v, huv⟩ := ih h
      exact ⟨c :: u, v, by simp [huv]⟩

theorem occursIn_append_right {pat s : Str} (v : Str) (h : occursIn pat s = true) :
    occursIn pat (s ++ v) = true := by
  induction s with
  | nil =>
    simp only [occursIn, List.isEmpty_iff] at h
    subst h
    cases v with
    | nil => rfl
    | cons c cs => simp [occursIn_cons, List.isPrefixOf]
  | cons c cs ih =>
    rw [occursIn_cons, Bool.or_eq_true] at h
    rw [List.cons_append, occursIn_cons, Bool.or_eq_true]
    rcases h with h | h
    · obtain ⟨t, ht⟩ := (pre_iff pat (c :: cs)).mp h
      left
      exact (pre_iff pat (c :: cs ++ v)).mpr ⟨t ++ v, by simp [ht]⟩
    · right; exact ih h

theorem occursIn_append_left {pat s : Str} (u : Str) (h : occursIn pat s = true) :
    occursIn pat (u ++ s) = true := by
  induction u with
  | nil => simpa
  | cons c cs ih => rw [List.cons_append, occursIn_cons, ih]; simp

theorem occursIn_pre_mono {a p s : Str} (hap : a.isPrefixOf p = true)
    (h : occursIn p s = true) : occursIn a s = true := by
  induction s with
  | nil =>
    simp only [occursIn, List.isEmpty_iff] at h ⊢
    subst h
    obtain ⟨t, ht⟩ := (pre_iff a []).mp hap
    exact (List.append_eq_nil.mp ht.symm).1
  | cons c cs ih =>
    rw [occursIn_cons, Bool.or_eq_true] at h ⊢
    rcases h with h | h
    · exact Or.inl (pre_trans hap h)
    · exact Or.inr (ih h)

/-! ## Border-freeness and first-occurrence search lemmas

The markers `<tool code="` and `</tool>` have no nontrivial border (no proper
suffix that is also a prefix), so an occurrence of a marker can never straddle
the boundary between a marker-free text and a following marker.  This is what
makes the regex scan compositional. -/

/-- `pat` has no nontrivial border. -/
def borderFree (pat : Str) : Prop :=
  ∀ L, L < pat.length → 0 < L → (pat.drop L).isPrefixOf pat = false

theorem borderFree_startLit : borderFree startLit := by
  intro L hL h0
  have hlen : startLit.length = 12 := rfl
  rw [hlen] at hL
  interval_cases L <;> rfl

theorem borderFree_endLit : borderFree endLit := by
  intro L hL h0
  have hlen : endLit.length = 7 := rfl
  rw [hlen] at hL
  interval_cases L <;> rfl

/-- Core straddle exclusion: a border-free pattern that starts right after a
pattern-free nonempty text `s` cannot also match at any position inside
`s`. -/
theorem noStraddle {pat s t : Str} (hpne : pat ≠ []) (hb : borderFree pat)
    (hocc : occursIn pat s = false) (hne : s ≠ []) (hpre : pat.isPrefixOf t = true) :
    pat.isPrefixOf (s ++ t) = false := by
  cases hmain : pat.isPrefixOf (s ++ t) with
  | false => rfl
  | true =>
    exfalso
    rcases split_pre hmain with hps | hsp
    · have := occursIn_of_pre hne hps
      simp [this] at hocc
    · obtain ⟨w, hw⟩ := (pre_iff s pat).mp hsp
      by_cases hlen : pat.length ≤ s.length
      · have : s = pat := pre_antisymm hsp hlen
        subst this
        have := occursIn_of_pre hne (pre_refl s)
        simp [this] at hocc
      · have hs_lt : s.length < pat.length := by omega
        have hs_pos : 0 < s.length := by
          cases s with
          | nil => exact absurd rfl hne
          | cons a as => simp
        have hw_eq : w = pat.drop s.length := by
          rw [hw]; simp
        have hwt : w.isPrefixOf t = true := by
          have h1 : (s ++ w).isPrefixOf (s ++ t) = true := by rw [← hw]; exact hmain
          rw [pre_cancel] at h1
          exact h1
        rcases pre_comparable hwt hpre with hwp | hpw
        · rw [hw_eq] at hwp
          exact absurd hwp (by simp [hb s.length hs_lt hs_pos])
        · have : pat.length ≤ w.length := pre_len hpw
          have : w.length = pat.length - s.length := by rw [hw_eq]; simp
          omega

/-- When `s` is free of `pat` and `pat` starts right after it, the first
occurrence of `pat` in `s ++ t` is exactly at the end of `s`. -/
theorem splitAtFirst_seg {pat : Str} (hpne : pat ≠ []) (hb : borderFree pat) :
    ∀ {s t : Str}, occursIn pat s = false → pat.isPrefixOf t = true →
    splitAtFirst pat (s ++ t) = some (s, t.drop pat.length) := by
  intro s
  induction s with
  | nil =>
    intro t _ hpre
    cases t with
    | nil =>
      obtain ⟨u, hu⟩ := (pre_iff pat []).mp hpre
      rcases List.append_eq_nil.mp hu.symm with ⟨rfl, -⟩
      exact absurd rfl hpne
    | cons c cs => simp [splitAtFirst, hpre]
  | cons c cs ih =>
    intro t hocc hpre
    obtain ⟨hp0, hocc2⟩ := occursIn_eq_false_cons hocc
    have hnp : pat.isPrefixOf (c :: (cs ++ t)) = false :=
      noStraddle hpne hb hocc (by simp) hpre
    rw [List.cons_append, splitAtFirst]
    simp only [hnp, Bool.false_eq_true, if_false]
    rw [ih hocc2 hpre]

/-- Decomposition returned by `splitAtFirst`. -/
theorem splitAtFirst_eq {pat : Str} : ∀ {s pre rest : Str},
    splitAtFirst pat s = some (pre, rest) → s = pre ++ pat ++ rest := by
  intro s
  induction s with
  | nil =>
    intro pre rest h
    by_cases hp : pat.isEmpty
    · simp only [splitAtFirst, hp, if_true, Option.some.injEq, Prod.mk.injEq] at h
      obtain ⟨rfl, rfl⟩ := h
      simp [List.isEmpty_iff.mp hp]
    · simp [splitAtFirst, hp] at h
  | cons c cs ih =>
    intro pre rest h
    by_cases hp : pat.isPrefixOf (c :: cs) = true
    · rw [splitAtFirst] at h
      simp only [hp, if_true, Option.some.injEq, Prod.mk.injEq] at h
      obtain ⟨rfl, rfl⟩ := h
      obtain ⟨u, hu⟩ := (pre_iff pat (c :: cs)).mp hp
      rw [hu]
      simp
    · rw [Bool.not_eq_true] at hp
      rw [splitAtFirst] at h
      simp only [hp, Bool.false_eq_true, if_false] at h
      cases hrec : splitAtFirst pat cs with
      | none => simp [hrec] at h
      | some pr =>
        obtain ⟨p1, p2⟩ := pr
        simp only [hrec, Option.some.injEq, Prod.mk.injEq] at h
        obtain ⟨rfl, rfl⟩ := h
        rw [ih hrec]
        simp

/-- Minimality: no occurrence of `pat` starts strictly before the split
point returned by `splitAtFirst`. -/
theorem splitAtFirst_min {pat : Str} : ∀ {s pre rest : Str},
    splitAtFirst pat s = some (pre, rest) →
    ∀ i, pat.isPrefixOf (s.drop i) = true → pre.length ≤ i := by
  intro s
  induction s with
  | nil =>
    intro pre rest h i _
    by_cases hp : pat.isEmpty
    · simp only [splitAtFirst, hp, if_true, Option.some.injEq, Prod.mk.injEq] at h
      obtain ⟨rfl, rfl⟩ := h
      simp
    · simp [splitAtFirst, hp] at h
  | cons c cs ih =>
    intro pre rest h i hi
    by_cases hp : pat.isPrefixOf (c :: cs) = true
    · rw [splitAtFirst] at h
      simp only [hp, if_true, Option.some.injEq, Prod.mk.injEq] at h
      obtain ⟨rfl, rfl⟩ := h
      simp
    · rw [Bool.not_eq_true] at hp
      rw [splitAtFirst] at h
      simp only [hp, Bool.false_eq_true, if_false] at h
      cases hrec : splitAtFirst pat cs with
      | none => simp [hrec] at h
      | some pr =>
        obtain ⟨p1, p2⟩ := pr
        simp only [hrec, Option.some.injEq, Prod.mk.injEq] at h
        obtain ⟨rfl, rfl⟩ := h
        cases i with
        | zero => rw [List.drop_zero] at hi; simp [hp] at hi
        | succ j =>
          have := ih hrec j (by simpa using hi)
          simp only [List.length_cons]
          omega

/-- `includes` agrees with first-occurrence search. -/
theorem occursIn_iff_split {pat : Str} : ∀ {s : Str},
    occursIn pat s = (splitAtFirst pat s).isSome := by
  intro s
  induction s with
  | nil =>
    by_cases hp : pat.isEmpty
    · simp [occursIn, splitAtFirst, hp]
    · simp [occursIn, splitAtFirst, hp]
  | cons c cs ih =>
    rw [occursIn_cons, splitAtFirst]
    by_cases hp : pat.isPrefixOf (c :: cs) = true
    · simp [hp]
    · rw [Bool.not_eq_true] at hp
      simp only [hp, Bool.false_eq_true, if_false, Bool.false_or]
      rw [ih]
      cases hrec : splitAtFirst pat cs with
      | none => simp
      | some pr => obtain ⟨p1, p2⟩ := pr; simp

/-! ## Specification of the tool-regex matcher -/

theorem stripPre_some {lit cs r : Str} (h : stripPre lit cs = some r) : cs = lit ++ r := by
  unfold stripPre at h
  by_cases hp : lit.isPrefixOf cs = true
  · simp only [hp, if_true, Option.some.injEq] at h
    obtain ⟨u, hu⟩ := (pre_iff lit cs).mp hp
    subst hu
    simp at h
    simp [h]
  · rw [Bool.not_eq_true] at hp
    simp [hp] at h

theorem stripPre_append (lit r : Str) : stripPre lit (lit ++ r) = some r := by
  unfold stripPre
  simp [pre_append]

theorem stripPre_none_of_headNe {lit cs : Str} {a b : Char} (hne : a ≠ b)
    (hl : lit = a :: lit.tail) (hc : cs = b :: cs.tail) : stripPre lit cs = none := by
  unfold stripPre
  rw [hl, hc]
  simp [List.isPrefixOf, hne]

theorem takeToQuote_some : ∀ {cs k r : Str}, takeToQuote cs = some (k, r) →
    cs = k ++ '"' :: r ∧ '"' ∉ k := by
  intro cs
  induction cs with
  | nil => intro k r h; simp [takeToQuote] at h
  | cons c cs ih =>
    intro k r h
    by_cases hc : c = '"'
    · subst hc
      simp only [takeToQuote, if_true, Option.some.injEq, Prod.mk.injEq] at h
      obtain ⟨rfl, rfl⟩ := h
      simp
    · rw [takeToQuote] at h
      simp only [hc, if_false] at h
      cases hrec : takeToQuote cs with
      | none => simp [hrec] at h
      | some pr =>
        obtain ⟨k1, r1⟩ := pr
        simp only [hrec, Option.some.injEq, Prod.mk.injEq] at h
        obtain ⟨rfl, rfl⟩ := h
        obtain ⟨he, hm⟩ := ih hrec
        refine ⟨by simp [he], ?_⟩
        simp only [List.mem_cons, not_or]
        exact ⟨fun hx => hc hx.symm, hm⟩

theorem takeToQuote_append : ∀ {k : Str}, '"' ∉ k → ∀ r : Str,
    takeToQuote (k ++ '"' :: r) = some (k, r) := by
  intro k
  induction k with
  | nil => intro _ r; simp [takeToQuote]
  | cons c cs ih =>
    intro hm r
    have hc : c ≠ '"' := by intro hc; exact hm (by simp [hc])
    rw [List.cons_append, takeToQuote]
    simp only [hc, if_false]
    rw [ih (by intro hx; exact hm (by simp [hx])) r]

theorem finishTool_some {kind : Str} {po : Option Str} {r : Str} {d : ToolDir}
    {rest : Str} (h : finishTool kind po r = some (d, rest)) :
    d.kind = kind ∧ d.path = po ∧ r = '>' :: (d.body ++ (endLit ++ rest)) := by
  cases r with
  | nil => simp [finishTool] at h
  | cons c r2 =>
    by_cases hc : c = '>'
    · subst hc
      rw [finishTool] at h
      simp only [if_true] at h
      cases hsp : splitAtFirst endLit r2 with
      | none => rw [hsp] at h; simp at h
      | some pr =>
        obtain ⟨body, rest2⟩ := pr
        rw [hsp] at h
        simp only [Option.some.injEq, Prod.mk.injEq] at h
        obtain ⟨rfl, rfl⟩ := h
        refine ⟨rfl, rfl, ?_⟩
        have := splitAtFirst_eq hsp
        simp [this, List.append_assoc]
    · rw [finishTool] at h
      simp [hc] at h

theorem finishTool_render (kind : Str) (po : Option Str) (body rest : Str)
    (hb : occursIn endLit body = false) :
    finishTool kind po ('>' :: (body ++ (endLit ++ rest))) = some (⟨kind, po, body⟩, rest) := by
  rw [finishTool]
  simp only [if_true]
  rw [splitAtFirst_seg (by decide) borderFree_endLit hb (pre_append endLit rest)]
  simp

theorem finishTool_pathLit (kind : Str) (po : Option Str) (rp : Str) :
    finishTool kind po (pathLit ++ rp) = none := by
  show finishTool kind po (' ' :: ( "path=\"".data ++ rp)) = none
  rw [finishTool]
  rw [if_neg (by decide)]

/-- A successful regex match at the head of `cs` matches exactly the
rendered text of the returned directive. -/
theorem matchToolAt_decomp : ∀ {cs : Str} {d : ToolDir} {rest : Str},
    matchToolAt cs = some (d, rest) → cs = dirText d ++ rest := by
  intro cs d rest h
  unfold matchToolAt at h
  cases h1 : stripPre startLit cs with
  | none => rw [h1] at h; simp at h
  | some r1 =>
    rw [h1] at h
    dsimp only [] at h
    have hcs := stripPre_some h1
    cases h2 : takeToQuote r1 with
    | none => rw [h2] at h; simp at h
    | some pr =>
      obtain ⟨kind, r2⟩ := pr
      rw [h2] at h
      dsimp only [] at h
      obtain ⟨hr1, hknq⟩ := takeToQuote_some h2
      by_cases hke : kind.isEmpty = true
      · simp only [hke, if_true] at h; simp at h
      · simp only [hke, Bool.false_eq_true, if_false] at h
        cases h3 : stripPre pathLit r2 with
        | none =>
          rw [h3] at h
          dsimp only [] at h
          obtain ⟨hdk, hdp, hr2⟩ := finishTool_some h
          rw [hcs, hr1, hr2]
          simp [dirText, hdp, ← hdk, List.append_assoc]
        | some rp =>
          rw [h3] at h
          dsimp only [] at h
          have hr2 := stripPre_some h3
          cases h4 : takeToQuote rp with
          | none =>
            rw [h4] at h
            dsimp only [] at h
            rw [hr2, finishTool_pathLit] at h
            simp at h
          | some pr2 =>
            obtain ⟨path, r3⟩ := pr2
            rw [h4] at h
            dsimp only [] at h
            obtain ⟨hrp, hpnq⟩ := takeToQuote_some h4
            by_cases hpe : path.isEmpty = true
            · simp only [hpe, if_true] at h
              rw [hr2, finishTool_pathLit] at h
              simp at h
            · simp only [hpe, Bool.false_eq_true, if_false] at h
              cases h5 : finishTool kind (some path) r3 with
              | none =>
                rw [h5] at h
                dsimp only [] at h
                rw [hr2, finishTool_pathLit] at h
                simp at h
              | some res =>
                rw [h5] at h
                dsimp only [] at h
                simp only [Option.some.injEq] at h
                subst h
                obtain ⟨hdk, hdp, hr3⟩ := finishTool_some h5
                rw [hcs, hr1, hr2, hrp, hr3]
                simp [dirText, hdp, ← hdk, List.append_assoc]

theorem matchToolAt_none_of_noPre {cs : Str} (h : startLit.isPrefixOf cs = false) :
    matchToolAt cs = none := by
  unfold matchToolAt
  unfold stripPre
  simp [h]

/-- A well-formed rendered block at the head of the input is matched exactly,
leaving the remainder untouched. -/
theorem matchToolAt_render {d : ToolDir} (hwf : wfDir d = true) (rest : Str) :
    matchToolAt (dirText d ++ rest) = some (d, rest) := by
  obtain ⟨kind, po, body⟩ := d
  cases po with
  | none =>
    simp only [wfDir, Bool.and_eq_true, Bool.not_eq_true'] at hwf
    obtain ⟨⟨⟨hke, hknc⟩, -⟩, hbf⟩ := hwf
    have hknq : '"' ∉ kind := by simpa using hknc
    have hshape : dirText ⟨kind, none, body⟩ ++ rest =
        startLit ++ (kind ++ '"' :: ('>' :: (body ++ (endLit ++ rest)))) := by
      simp [dirText, List.append_assoc]
    rw [matchToolAt, hshape, stripPre_append]
    dsimp only []
    rw [takeToQuote_append hknq]
    dsimp only []
    simp only [hke, Bool.false_eq_true, if_false]
    rw [stripPre_none_of_headNe (show ' ' ≠ '>' by decide) rfl rfl]
    dsimp only []
    exact finishTool_render kind none body rest hbf
  | some p =>
    simp only [wfDir, Bool.and_eq_true, Bool.not_eq_true'] at hwf
    obtain ⟨⟨⟨hke, hknc⟩, hpe, hpnc⟩, hbf⟩ := hwf
    have hknq : '"' ∉ kind := by simpa using hknc
    have hpnq : '"' ∉ p := by simpa using hpnc
    have hshape : dirText ⟨kind, some p, body⟩ ++ rest =
        startLit ++ (kind ++ '"' :: (pathLit ++ (p ++ '"' :: ('>' :: (body ++ (endLit ++ rest)))))) := by
      simp [dirText, List.append_assoc]
    rw [matchToolAt, hshape, stripPre_append]
    dsimp only []
    rw [takeToQuote_append hknq]
    dsimp only []
    simp only [hke, Bool.false_eq_true, if_false]
    rw [stripPre_append]
    dsimp only []
    rw [takeToQuote_append hpnq]
    dsimp only []
    simp only [hpe, Bool.false_eq_true, if_false]
    rw [finishTool_render kind (some p) body rest hbf]

theorem dirText_len_pos (d : ToolDir) : 0 < (dirText d).length := by
  simp [dirText, startLit]

theorem matchToolAt_len {cs : Str} {d : ToolDir} {rest : Str}
    (h : matchToolAt cs = some (d, rest)) : rest.length < cs.length := by
  have := matchToolAt_decomp h
  subst this
  have := dirText_len_pos d
  simp [List.length_append]
  omega

/-! ## Scan lemmas: the global regex pass over a rendered reply -/

/-- Fuel irrelevance: any fuel at least the text length gives the canonical
scan. -/
theorem scanGo_fuel : ∀ m {cs : Str}, cs.length ≤ m → scanGo m cs = scanTools cs := by
  intro m
  induction m using Nat.strong_induction_on with
  | _ m ih =>
    intro cs hm
    cases m with
    | zero =>
      cases cs with
      | nil => rfl
      | cons c cs => simp at hm
    | succ k =>
      cases cs with
      | nil => rfl
      | cons c cs =>
        have hck : cs.length ≤ k := by simp at hm; omega
        rw [scanTools]
        simp only [List.length_cons]
        rw [scanGo, scanGo]
        cases hmt : matchToolAt (c :: cs) with
        | some pr =>
          obtain ⟨d, rest⟩ := pr
          have hlen : rest.length ≤ cs.length := by
            have := matchToolAt_len hmt
            simp at this
            omega
          have h1 : scanGo k rest = scanTools rest := ih k (by omega) (by omega)
          have h2 : scanGo cs.length rest = scanTools rest := ih cs.length (by omega) hlen
          dsimp only []
          rw [h1, h2]
        | none =>
          have h1 : scanGo k cs = scanTools cs := ih k (by omega) hck
          have h2 : scanGo cs.length cs = scanTools cs := rfl
          dsimp only []
          rw [h1, h2]

/-- A text free of the start marker scans to no directives and itself as
narrative. -/
theorem scanTools_free : ∀ {s : Str}, occursIn startLit s = false →
    scanTools s = ([], s) := by
  intro s
  induction s with
  | nil => intro _; rfl
  | cons c cs ih =>
    intro h
    obtain ⟨hp, ho⟩ := occursIn_eq_false_cons h
    rw [scanTools]
    simp only [List.length_cons]
    rw [scanGo, matchToolAt_none_of_noPre hp]
    dsimp only []
    rw [scanGo_fuel cs.length (Nat.le_refl _), ih ho]

/-- Scanning a marker-free segment followed by a match point: the segment
goes to the narrative and scanning continues at the match point. -/
theorem scanTools_seg : ∀ {s t : Str}, occursIn startLit s = false →
    startLit.isPrefixOf t = true →
    scanTools (s ++ t) = ((scanTools t).1, s ++ (scanTools t).2) := by
  intro s
  induction s with
  | nil => intro t _ _; simp
  | cons c cs ih =>
    intro t hocc hpre
    obtain ⟨hp, ho⟩ := occursIn_eq_false_cons hocc
    have hnp : startLit.isPrefixOf (c :: (cs ++ t)) = false :=
      noStraddle (by decide) borderFree_startLit hocc (by simp) hpre
    rw [List.cons_append, scanTools]
    simp only [List.length_cons]
    rw [scanGo, matchToolAt_none_of_noPre hnp]
    dsimp only []
    rw [scanGo_fuel (cs ++ t).length (Nat.le_refl _), ih ho hpre]
    simp

/-- Scanning from a well-formed rendered block consumes exactly the block. -/
theorem scanTools_block {d : ToolDir} (hwf : wfDir d = true) (rest : Str) :
    scanTools (dirText d ++ rest) =
      (d :: (scanTools rest).1, (scanTools rest).2) := by
  have hne : dirText d ++ rest ≠ [] := by
    intro hx
    rcases List.append_eq_nil.mp hx with ⟨h1, -⟩
    have := dirText_len_pos d
    simp [h1] at this
  cases hd : dirText d ++ rest with
  | nil => exact absurd hd hne
  | cons c cs =>
    rw [scanTools]
    simp only [List.length_cons]
    rw [scanGo]
    have hmt : matchToolAt (c :: cs) = some (d, rest) := by
      rw [← hd]; exact matchToolAt_render hwf rest
    rw [hmt]
    dsimp only []
    have hrest : rest.length ≤ cs.length := by
      have := matchToolAt_len hmt
      simp at this
      omega
    rw [scanGo_fuel cs.length hrest]

theorem startLit_pre_dirText (d : ToolDir) (r : Str) :
    startLit.isPrefixOf (dirText d ++ r) = true := by
  refine (pre_iff startLit (dirText d ++ r)).mpr ?_
  refine ⟨(d.kind ++ '"' ::
    ((match d.path with
      | some p => pathLit ++ p ++ [ '"' ]
      | none => []) ++ '>' :: (d.body ++ endLit))) ++ r, ?_⟩
  simp [dirText, List.append_assoc]

/-- The parser on a reply assembled from marker-free narrative segments and
well-formed blocks: exactly the blocks, in order, and the narrative is the
concatenation of the segments. -/
theorem scanTools_render : ∀ {rest : List (ToolDir × Str)} {s0 : Str},
    occursIn startLit s0 = false →
    (∀ x ∈ rest, wfDir x.1 = true ∧ occursIn startLit x.2 = false) →
    scanTools (render s0 rest) =
      (rest.map (fun x => x.1), s0 ++ (rest.map (fun x => x.2)).flatten) := by
  intro rest
  induction rest with
  | nil =>
    intro s0 h0 _
    have : render s0 [] = s0 := by simp [render]
    rw [this, scanTools_free h0]
    simp
  | cons x xs ih =>
    intro s0 h0 hall
    obtain ⟨b, s1⟩ := x
    have hwf := (hall (b, s1) (by simp)).1
    have hs1 := (hall (b, s1) (by simp)).2
    have hrest : ∀ y ∈ xs, wfDir y.1 = true ∧ occursIn startLit y.2 = false :=
      fun y hy => hall y (by simp [hy])
    have hr : render s0 ((b, s1) :: xs) = s0 ++ (dirText b ++ render s1 xs) := by
      simp [render, List.append_assoc]
    rw [hr, scanTools_seg h0 (startLit_pre_dirText b (render s1 xs)),
      scanTools_block hwf (render s1 xs), ih hs1 hrest]
    simp [List.append_assoc]

/-- The trimmed string sits inside the original. -/
theorem jsTrim_decomp (s : Str) : ∃ u v, s = u ++ jsTrim s ++ v := by
  have h1 : s = s.takeWhile Char.isWhitespace ++ s.dropWhile Char.isWhitespace :=
    (List.takeWhile_append_dropWhile _ _).symm
  have h2 : (s.dropWhile Char.isWhitespace).reverse =
      (s.dropWhile Char.isWhitespace).reverse.takeWhile Char.isWhitespace ++
        (s.dropWhile Char.isWhitespace).reverse.dropWhile Char.isWhitespace :=
    (List.takeWhile_append_dropWhile _ _).symm
  have h3 : s.dropWhile Char.isWhitespace =
      jsTrim s ++ ((s.dropWhile Char.isWhitespace).reverse.takeWhile Char.isWhitespace).reverse := by
    unfold jsTrim
    conv_lhs =>
      rw [← List.reverse_reverse (s.dropWhile Char.isWhitespace)]
      rw [h2]
    rw [List.reverse_append]
  refine ⟨s.takeWhile Char.isWhitespace,
    ((s.dropWhile Char.isWhitespace).reverse.takeWhile Char.isWhitespace).reverse, ?_⟩
  conv_lhs => rw [h1, h3]
  rw [List.append_assoc]

theorem occursIn_jsTrim {pat s : Str} (h : occursIn pat (jsTrim s) = true) :
    occursIn pat s = true := by
  obtain ⟨u, v, huv⟩ := jsTrim_decomp s
  rw [huv, List.append_assoc]
  exact occursIn_append_left u (occursIn_append_right v h)

/-! ## Claim C1 -/

/-- Claim C1, counterexample: a model reply containing exactly one
well-formed, non-nested directive block (`render` of a marker-free fragment
`"<tool "`, the block `<tool code="k">b</tool>`, and a marker-free trailing
fragment) for which the parser does extract exactly that one directive, yet
the narrative emitted to the presentation layer is exactly the matched
directive substring: removing the match made the flanking fragments adjacent
and they recompose the directive text.  This refutes the narrative half of
the claim as stated. -/
theorem c1_counterexample :
    wfDir ⟨ "k".data, none, "b".data⟩ = true ∧
    occursIn startLit ( "<tool ".data) = false ∧
    occursIn startLit ( "code=\"k\">b</tool>".data) = false ∧
    (scanTools (render ( "<tool ".data)
        [(⟨ "k".data, none, "b".data⟩, "code=\"k\">b</tool>".data)])).1 =
      [⟨ "k".data, none, "b".data⟩] ∧
    jsTrim (scanTools (render ( "<tool ".data)
        [(⟨ "k".data, none, "b".data⟩, "code=\"k\">b</tool>".data)])).2 =
      dirText ⟨ "k".data, none, "b".data⟩ ∧
    occursIn (dirText ⟨ "k".data, none, "b".data⟩)
      (jsTrim (scanTools (render ( "<tool ".data)
        [(⟨ "k".data, none, "b".data⟩, "code=\"k\">b</tool>".data)])).2) = true := by
  decide

/-- Claim C1 (amended): for a reply assembled from narrative segments free of
the start marker `<tool code="` and N well-formed, non-nested directive
blocks, the parser extracts exactly the N directives in left-to-right
document order (each body ending at the first end marker) and the narrative
is the reply with the matched substrings removed, i.e. the concatenation of
the segments; moreover, whenever that concatenation is itself free of the
start marker (stripping may otherwise recompose one across a removed match),
the trimmed narrative contains none of the matched directive substrings. -/
theorem c1_parse_render (s0 : Str) (rest : List (ToolDir × Str))
    (h0 : occursIn startLit s0 = false)
    (hall : ∀ x ∈ rest, wfDir x.1 = true ∧ occursIn startLit x.2 = false) :
    (scanTools (render s0 rest)).1 = rest.map (fun x => x.1) ∧
    (scanTools (render s0 rest)).2 = s0 ++ (rest.map (fun x => x.2)).flatten ∧
    (occursIn startLit (s0 ++ (rest.map (fun x => x.2)).flatten) = false →
      ∀ x ∈ rest,
        occursIn (dirText x.1) (jsTrim (scanTools (render s0 rest)).2) = false) := by
  have h := scanTools_render h0 hall
  refine ⟨by rw [h], by rw [h], ?_⟩
  intro hfree x hx
  cases hocc : occursIn (dirText x.1) (jsTrim (scanTools (render s0 rest)).2) with
  | false => rfl
  | true =>
    exfalso
    rw [h] at hocc
    have h1 : occursIn (dirText x.1)
        (s0 ++ (rest.map (fun x => x.2)).flatten) = true := occursIn_jsTrim hocc
    have hpre : startLit.isPrefixOf (dirText x.1) = true := by
      have := startLit_pre_dirText x.1 []
      rwa [List.append_nil] at this
    have h2 := occursIn_pre_mono hpre h1
    rw [hfree] at h2
    exact Bool.false_ne_true h2

/-- Witness for C1 at a concrete reply: one `list_files` block between
the fragments `"hello "` and `" bye"`. -/
theorem c1_witness :
    (scanTools (render ( "hello ".data)
        [(⟨ "list_files".data, none, []⟩, " bye".data)])).1 =
      [(⟨ "list_files".data, none, []⟩, " bye".data)].map
        (fun x : ToolDir × Str => x.1) ∧
    (scanTools (render ( "hello ".data)
        [(⟨ "list_files".data, none, []⟩, " bye".data)])).2 =
      "hello ".data ++ ([(⟨ "list_files".data, none, []⟩, " bye".data)].map
        (fun x : ToolDir × Str => x.2)).flatten ∧
    (occursIn startLit ( "hello ".data ++
        ([(⟨ "list_files".data, none, []⟩, " bye".data)].map
          (fun x : ToolDir × Str => x.2)).flatten) = false →
      ∀ x ∈ [(⟨ "list_files".data, none, []⟩, " bye".data)],
        occursIn (dirText x.1)
          (jsTrim (scanTools (render ( "hello ".data)
            [(⟨ "list_files".data, none, []⟩, " bye".data)])).2) = false) :=
  c1_parse_render ( "hello ".data)
    [(⟨ "list_files".data, none, []⟩, " bye".data)] (by decide) (by decide)

/-! ## Filesystem lemmas -/

theorem fsGet_append (a b : Fs) (p : Str) :
    fsGet (a ++ b) p = ((fsGet a p).rec (fsGet b p) (fun c => some c) : Option Str) := by
  induction a with
  | nil => simp [fsGet]
  | cons e fs ih =>
    by_cases he : e.1 = p
    · simp [fsGet, he]
    · simp [fsGet, he, ih]

theorem fsGet_none_iff (fs : Fs) (p : Str) :
    fsGet fs p = none ↔ ∀ e ∈ fs, e.1 ≠ p := by
  induction fs with
  | nil => simp [fsGet]
  | cons e fs ih =>
    by_cases he : e.1 = p
    · simp [fsGet, he]
    · simp [fsGet, he, ih]

theorem fsGet_filterNe (fs : Fs) (p : Str) :
    fsGet (fs.filter (fun e => e.1 ≠ p)) p = none := by
  rw [fsGet_none_iff]
  intro e he
  have := List.of_mem_filter he
  simpa using this

theorem fsGet_set_self (fs : Fs) (p c : Str) : fsGet (fsSet fs p c) p = some c := by
  unfold fsSet
  rw [fsGet_append, fsGet_filterNe]
  simp [fsGet]

theorem fsGet_filter_other (fs : Fs) (p q : Str) (hne : q ≠ p) :
    fsGet (fs.filter (fun e => e.1 ≠ p)) q = fsGet fs q := by
  induction fs with
  | nil => rfl
  | cons e fs ih =>
    by_cases hep : e.1 = p
    · rw [List.filter_cons_of_neg (by simp [hep])]
      rw [ih]
      have hne2 : ¬ e.1 = q := by rw [hep]; intro h; exact hne h.symm
      simp [fsGet, hne2]
    · rw [List.filter_cons_of_pos (by simp [hep])]
      by_cases heq : e.1 = q
      · simp [fsGet, heq]
      · rw [fsGet, fsGet, if_neg heq, if_neg heq]
        exact ih

theorem fsGet_set_other (fs : Fs) (p c q : Str) (hne : q ≠ p) :
    fsGet (fsSet fs p c) q = fsGet fs q := by
  unfold fsSet
  rw [fsGet_append, fsGet_filter_other fs p q hne]
  cases h : fsGet fs q with
  | some v => rfl
  | none =>
    show fsGet [(p, c)] q = none
    simp [fsGet, hne.symm]

theorem bak_notPre_self (p : Str) : (p ++ ".bak.".data).isPrefixOf p = false :=
  notPre_of_longer (by simp)

theorem bak_pre_bakName (p ts : Str) :
    (p ++ ".bak.".data).isPrefixOf (bakName p ts) = true := by
  unfold bakName
  exact pre_append (p ++ ".bak.".data) ts

theorem ne_bakName (p ts : Str) : p ≠ bakName p ts := by
  intro h
  have := congrArg List.length h
  simp [bakName, List.length_append] at this

theorem backups_append (a b : Fs) (p : Str) :
    backups (a ++ b) p = backups a p ++ backups b p := by
  unfold backups
  exact List.filter_append _ _

theorem backups_filterNe (fs : Fs) (p q : Str)
    (hq : (p ++ ".bak.".data).isPrefixOf q = false) :
    backups (fs.filter (fun e => e.1 ≠ q)) p = backups fs p := by
  unfold backups
  induction fs with
  | nil => rfl
  | cons e fs ih =>
    by_cases heq : e.1 = q
    · rw [List.filter_cons_of_neg (by simp [heq]), ih,
        List.filter_cons_of_neg (by simp [heq, hq])]
    · rw [List.filter_cons_of_pos (by simp [heq])]
      by_cases hb : (p ++ ".bak.".data).isPrefixOf e.1 = true
      · rw [List.filter_cons_of_pos (by simpa using hb), List.filter_cons_of_pos (by simpa using hb), ih]
    
      · rw [Bool.not_eq_true] at hb
        rw [List.filter_cons_of_neg (by simp [hb]),
          List.filter_cons_of_neg (by simp [hb]), ih]

theorem backups_single_self (p c : Str) : backups [(p, c)] p = [] := by
  unfold backups
  rw [List.filter_cons_of_neg (by simp [bak_notPre_self p])]
  rfl

theorem backups_single_bak (p ts c : Str) :
    backups [(bakName p ts, c)] p = [(bakName p ts, c)] := by
  unfold backups
  rw [List.filter_cons_of_pos (by simpa using bak_pre_bakName p ts)]
  rfl

theorem backups_set_self (fs : Fs) (p c : Str) :
    backups (fsSet fs p c) p = backups fs p := by
  unfold fsSet
  rw [backups_append, backups_single_self, List.append_nil,
    backups_filterNe fs p p (bak_notPre_self p)]

theorem filter_ne_of_fresh (fs : Fs) (q : Str) (hfresh : fsGet fs q = none) :
    fs.filter (fun e => e.1 ≠ q) = fs := by
  rw [List.filter_eq_self]
  intro e he
  have := (fsGet_none_iff fs q).mp hfresh e he
  simpa using this

theorem backups_set_bak (fs : Fs) (p ts c : Str)
    (hfresh : fsGet fs (bakName p ts) = none) :
    backups (fsSet fs (bakName p ts) c) p = backups fs p ++ [(bakName p ts, c)] := by
  unfold fsSet
  rw [backups_append, backups_single_bak, filter_ne_of_fresh fs _ hfresh]

theorem createBackup_found {fs : Fs} {p c : Str} (h : fsGet fs p = some c) (ts : Str) :
    createBackup fs p ts true = fsSet fs (bakName p ts) c := by
  unfold createBackup
  rw [h]
  rfl

theorem createBackup_missing {fs : Fs} {p : Str} (h : fsGet fs p = none)
    (ts : Str) (bakOk : Bool) : createBackup fs p ts bakOk = fs := by
  unfold createBackup
  rw [h]

theorem createBackup_fail (fs : Fs) (p ts : Str) : createBackup fs p ts false = fs := by
  unfold createBackup
  cases fsGet fs p <;> rfl

/-! ## Claim C2 -/

/-- Claim C2: writing to an existing, non-denied path creates (before the
overwrite) exactly one new backup `p + ".bak." + ts` holding the pre-write
content, provided the backup name is fresh; writing to a missing path creates
zero backups; and a failing backup (`bakOk = false`) never aborts the write —
the file always ends up holding the new content. -/
theorem c2_write_backup (fs : Fs) (p c ts : Str) (bakOk : Bool)
    (hig : isIgnored p = false)
    (hfresh : fsGet fs (bakName p ts) = none) :
    ∃ fs', writeFile true fs p c ts bakOk = .ok fs' ∧
      fsGet fs' p = some c ∧
      (∀ c₀, fsGet fs p = some c₀ → bakOk = true →
        backups fs' p = backups fs p ++ [(bakName p ts, c₀)]) ∧
      (fsGet fs p = none → backups fs' p = backups fs p) := by
  refine ⟨fsSet (createBackup fs p ts bakOk) p c, ?_, ?_, ?_, ?_⟩
  · unfold writeFile
    simp [hig]
  · exact fsGet_set_self _ p c
  · intro c₀ hget hok
    subst hok
    rw [createBackup_found hget ts, backups_set_self,
      backups_set_bak fs p ts c₀ hfresh]
  · intro hnone
    rw [createBackup_missing hnone ts bakOk, backups_set_self]

/-- Witness for C2 at a concrete filesystem: overwrite of an existing
top-level file with a fresh timestamp. -/
theorem c2_witness :
    ∃ fs', writeFile true [( "a.txt".data, "old".data)] ( "a.txt".data)
        ( "new".data) ( "t1".data) true = .ok fs' ∧
      fsGet fs' ( "a.txt".data) = some ( "new".data) ∧
      (∀ c₀, fsGet [( "a.txt".data, "old".data)] ( "a.txt".data) = some c₀ → true = true →
        backups fs' ( "a.txt".data) =
          backups [( "a.txt".data, "old".data)] ( "a.txt".data) ++
            [(bakName ( "a.txt".data) ( "t1".data), c₀)]) ∧
      (fsGet [( "a.txt".data, "old".data)] ( "a.txt".data) = none →
        backups fs' ( "a.txt".data) = backups [( "a.txt".data, "old".data)] ( "a.txt".data)) :=
  c2_write_backup [( "a.txt".data, "old".data)] ( "a.txt".data) ( "new".data)
    ( "t1".data) true (by decide) (by decide)

/-! ## Claim C5 -/

/-- Claim C5: a `replace_lines` directive whose body lacks a `<search>`
region or a `<replace>` region fails with `MalformedDirective` and performs
no filesystem mutation: for an arbitrary filesystem the gateway call returns
the error without producing a new filesystem, and at the executor boundary
the filesystem is returned unchanged. -/
theorem c5_malformed (fs : Fs) (p content ts : Str) (bakOk : Bool) (env : Env)
    (tsIdx : Nat) (henv : env.ws = true)
    (h : matchTagged ( "<search>".data) ( "</search>".data) content = none ∨
      matchTagged ( "<replace>".data) ( "</replace>".data) content = none) :
    replaceLines true fs p content ts bakOk = .error .malformedDirective ∧
    (execDirective env fs tsIdx ⟨ "replace_lines".data, some p, content⟩).1 = fs ∧
    (execDirective env fs tsIdx ⟨ "replace_lines".data, some p, content⟩).2 =
      .failure .malformedDirective := by
  have hrl : ∀ (ws : Bool) (ts2 : Str) (bakOk2 : Bool), ws = true →
      replaceLines ws fs p content ts2 bakOk2 = .error .malformedDirective := by
    intro ws ts2 bakOk2 hws
    subst hws
    unfold replaceLines
    cases h1 : matchTagged ( "<search>".data) ( "</search>".data) content with
    | none =>
      cases h2 : matchTagged ( "<replace>".data) ( "</replace>".data) content with
      | none => simp
      | some r => simp
    | some s =>
      cases h2 : matchTagged ( "<replace>".data) ( "</replace>".data) content with
      | none => simp
      | some r =>
        rcases h with h | h
        · rw [h1] at h; exact absurd h (by simp)
        · rw [h2] at h; exact absurd h (by simp)
  refine ⟨hrl true ts bakOk rfl, ?_, ?_⟩ <;>
  · unfold execDirective dispatch
    simp [hrl env.ws (env.ts tsIdx) true henv, Except.map]

/-! ## Claim C6 -/

/-- Claim C6: for every relative path whose normalized form contains an
ignored-directory name as an inner path segment or starts with one (the
source's deny check over the default ignore set), `readFile` and `writeFile`
fail with `AccessDenied`, for every filesystem and regardless of its
contents — no filesystem access occurs. -/
theorem c6_ignored (fs : Fs) (p c ts : Str) (bakOk : Bool)
    (h : ∃ pat ∈ ignorePatterns,
        occursIn ( '/' :: (pat ++ [ '/' ])) (normalizePath p) = true ∨
        (pat ++ [ '/' ]).isPrefixOf (normalizePath p) = true) :
    readFile true fs p = .error .accessDenied ∧
    writeFile true fs p c ts bakOk = .error .accessDenied := by
  have hig : isIgnored p = true := by
    unfold isIgnored
    rw [List.any_eq_true]
    obtain ⟨pat, hmem, hcase⟩ := h
    exact ⟨pat, hmem, by rcases hcase with hc | hc <;> simp [hc]⟩
  constructor
  · unfold readFile
    simp [hig]
  · unfold writeFile
    simp [hig]

/-- Witness for C6 at the spec's own examples: `node_modules/x.txt` for the
read and `build/y.txt` for the write. -/
theorem c6_witness :
    (readFile true [] ( "node_modules/x.txt".data) = .error .accessDenied ∧
      writeFile true [] ( "node_modules/x.txt".data) ( "c".data) ( "t".data) true =
        .error .accessDenied) ∧
    (readFile true [] ( "build/y.txt".data) = .error .accessDenied ∧
      writeFile true [] ( "build/y.txt".data) ( "c".data) ( "t".data) true =
        .error .accessDenied) :=
  ⟨c6_ignored [] ( "node_modules/x.txt".data) ( "c".data) ( "t".data) true
      ⟨ "node_modules".data, by decide, by decide⟩,
    c6_ignored [] ( "build/y.txt".data) ( "c".data) ( "t".data) true
      ⟨ "build".data, by decide, by decide⟩⟩

/-! ## Claim C8 -/

/-- Claim C8: with a configured workspace, `runCommand` never throws: every
run — including one whose process exits non-zero or could not be spawned at
all (in both cases `cp.exec` hands an error object to the callback) —
resolves to a success-level result, the combined stdout/stderr annotated with
the reported exit code.  In particular no `ExecError` (indeed no error at
all) is ever produced, so anything yielding an `ExecError` is vacuously a
spawn failure. -/
theorem c8_run_command (exec : Str → ExecOut) (cmd : Str) :
    runCommand true exec cmd = .ok (combineOutput (exec cmd)) ∧
    (∀ e : ToolErr, runCommand true exec cmd ≠ .error e) ∧
    (∀ code out serr, exec cmd = (some code, out, serr) →
      runCommand true exec cmd = .ok ( "Exit Code: ".data ++ code ++ '\n' ::
        (out ++ (if serr.isEmpty then [] else "\nstderr:\n".data ++ serr)))) := by
  refine ⟨rfl, ?_, ?_⟩
  · intro e he
    simp [runCommand] at he
  · intro code out serr h
    unfold runCommand combineOutput
    rw [h]
    simp

/-- Witness for C8: a command reported with exit code 127 and both output
streams nonempty. -/
theorem c8_witness :
    runCommand true (fun _ => (some ( "127".data), "out".data, "err".data))
        ( "zz".data) ≠
      .error .noWorkspace ∧
    runCommand true (fun _ => (some ( "127".data), "out".data, "err".data))
        ( "zz".data) =
      .ok ( "Exit Code: ".data ++ "127".data ++ '\n' ::
        ( "out".data ++ (if ( "err".data : Str).isEmpty then []
          else "\nstderr:\n".data ++ "err".data))) :=
  ⟨(c8_run_command (fun _ => (some ( "127".data), "out".data, "err".data))
      ( "zz".data)).2.1 .noWorkspace,
    (c8_run_command (fun _ => (some ( "127".data), "out".data, "err".data))
      ( "zz".data)).2.2 ( "127".data) ( "out".data) ( "err".data) rfl⟩

/-! ## Claim C9 -/

/-- Claim C9: a directive whose kind is none of the six known kinds is not
dispatched to any gateway operation and produces no error: the executor
returns the filesystem unchanged together with a success outcome carrying
the empty result. -/
theorem c9_unknown_kind (env : Env) (fs : Fs) (tsIdx : Nat) (d : ToolDir)
    (h1 : d.kind ≠ "replace_lines".data) (h2 : d.kind ≠ "write_file".data)
    (h3 : d.kind ≠ "read_file".data) (h4 : d.kind ≠ "list_files".data)
    (h5 : d.kind ≠ "run_command".data) (h6 : d.kind ≠ "restore_file".data) :
    execDirective env fs tsIdx d = (fs, .success []) := by
  unfold execDirective dispatch
  simp [h1, h2, h3, h4, h5, h6]

/-- Witness for C9 with the unknown kind `frobnicate` against a nonempty
filesystem. -/
theorem c9_witness :
    execDirective ⟨fun _ => [], fun _ => (none, [], []), fun _ => [], true⟩
        [( "a".data, "x".data)] 0 ⟨ "frobnicate".data, none, "body".data⟩ =
      ([( "a".data, "x".data)], .success []) :=
  c9_unknown_kind ⟨fun _ => [], fun _ => (none, [], []), fun _ => [], true⟩
    [( "a".data, "x".data)] 0 ⟨ "frobnicate".data, none, "body".data⟩
    (by decide) (by decide) (by decide) (by decide) (by decide) (by decide)

/-- Witness for C5: a body with neither region, against a nonempty
filesystem. -/
theorem c5_witness :
    replaceLines true [( "f".data, "ab".data)] ( "f".data) ( "hello".data)
        ( "t".data) true = .error .malformedDirective ∧
    (execDirective ⟨fun _ => [], fun _ => (none, [], []), fun _ => [], true⟩
        [( "f".data, "ab".data)] 0
        ⟨ "replace_lines".data, some ( "f".data), "hello".data⟩).1 =
      [( "f".data, "ab".data)] ∧
    (execDirective ⟨fun _ => [], fun _ => (none, [], []), fun _ => [], true⟩
        [( "f".data, "ab".data)] 0
        ⟨ "replace_lines".data, some ( "f".data), "hello".data⟩).2 =
      .failure .malformedDirective :=
  c5_malformed [( "f".data, "ab".data)] ( "f".data) ( "hello".data) ( "t".data)
    true ⟨fun _ => [], fun _ => (none, [], []), fun _ => [], true⟩ 0 rfl
    (Or.inl (by decide))

/-! ## Claim C4 -/

theorem getSubstitution_noDollar (m b a : Str) : ∀ {repl : Str}, '$' ∉ repl →
    getSubstitution m b a repl = repl := by
  intro repl
  induction repl with
  | nil => intro _; rfl
  | cons c rest ih =>
    intro h
    have hc : ¬ c = '$' := fun hx => h (by simp [hx])
    have hrest : '$' ∉ rest := fun hx => h (by simp [hx])
    rw [getSubstitution.eq_def]
    dsimp only []
    rw [if_neg hc, ih hrest]

/-- Success path of `_replaceLines`: parsed regions, existing file, search
found — back up and rewrite with the JS first-occurrence replacement. -/
theorem replaceLines_ok (fs : Fs) (p content ts : Str) (bakOk : Bool)
    {search repl orig pre rest : Str}
    (hs : matchTagged ( "<search>".data) ( "</search>".data) content = some search)
    (hr : matchTagged ( "<replace>".data) ( "</replace>".data) content = some repl)
    (hget : fsGet fs p = some orig)
    (hsplit : splitAtFirst search orig = some (pre, rest)) :
    replaceLines true fs p content ts bakOk =
      .ok (fsSet (createBackup fs p ts bakOk) p
        (pre ++ getSubstitution search pre rest repl ++ rest)) := by
  unfold replaceLines
  rw [hs, hr]
  dsimp only []
  rw [hget]
  dsimp only []
  have hocc : occursIn search orig = true := by
    rw [occursIn_iff_split, hsplit]
    rfl
  rw [hocc]
  simp only [Bool.true_eq_false, if_false]
  unfold jsReplaceFirst
  rw [hsplit]

/-- Claim C4 (amended): when `search` occurs in the file, `replaceLines`
rewrites the file to the original with exactly the first occurrence of
`search` replaced by the JS substitution of `replace` (dollar sequences
`$$`, `$&`, dollar-backquote and `$'` are interpreted, everything else is
literal); in particular, when `replace` contains no dollar at all, the
replacement is the literal `replace` and all text outside the first
occurrence — including every later occurrence — is unchanged.  When `search`
does not occur, it fails with `SearchNotFound` (and, being an error, leaves
the filesystem untouched). -/
theorem c4_replace_first (fs : Fs) (p content ts : Str) (bakOk : Bool)
    {search repl orig : Str}
    (hs : matchTagged ( "<search>".data) ( "</search>".data) content = some search)
    (hr : matchTagged ( "<replace>".data) ( "</replace>".data) content = some repl)
    (hget : fsGet fs p = some orig) :
    (∀ pre rest, splitAtFirst search orig = some (pre, rest) →
      ∃ fs', replaceLines true fs p content ts bakOk = .ok fs' ∧
        orig = pre ++ search ++ rest ∧
        fsGet fs' p = some (pre ++ getSubstitution search pre rest repl ++ rest) ∧
        (∀ i, search.isPrefixOf (orig.drop i) = true → pre.length ≤ i) ∧
        ('$' ∉ repl → fsGet fs' p = some (pre ++ repl ++ rest))) ∧
    (splitAtFirst search orig = none →
      replaceLines true fs p content ts bakOk = .error .searchNotFound) := by
  constructor
  · intro pre rest hsplit
    refine ⟨_, replaceLines_ok fs p content ts bakOk hs hr hget hsplit,
      splitAtFirst_eq hsplit, fsGet_set_self _ _ _, splitAtFirst_min hsplit, ?_⟩
    intro hnd
    rw [getSubstitution_noDollar search pre rest hnd]
    exact fsGet_set_self _ _ _
  · intro hnone
    unfold replaceLines
    rw [hs, hr]
    dsimp only []
    rw [hget]
    dsimp only []
    have hocc : occursIn search orig = false := by
      rw [occursIn_iff_split, hnone]
      rfl
    rw [hocc]
    simp

/-- Claim C4, counterexample: the replacement text is *not* inserted
literally — `String.replace` interprets dollar sequences.  With file content
`ab`, `search = "a"` and `replace = "$&$&"`, the claim as stated demands the
result `$&$&b`, but the code produces `aab` (`$&` expands to the matched
text). -/
theorem c4_counterexample :
    matchTagged ( "<search>".data) ( "</search>".data)
      ( "<search>a</search><replace>$&$&</replace>".data) = some ( "a".data) ∧
    matchTagged ( "<replace>".data) ( "</replace>".data)
      ( "<search>a</search><replace>$&$&</replace>".data) = some ( "$&$&".data) ∧
    occursIn ( "a".data) ( "ab".data) = true ∧
    (replaceLines true [( "f".data, "ab".data)] ( "f".data)
        ( "<search>a</search><replace>$&$&</replace>".data) ( "t".data) true).map
      (fun fs' => fsGet fs' ( "f".data)) = .ok (some ( "aab".data)) ∧
    ( "aab".data : Str) ≠ "$&$&b".data :=
  ⟨by decide, by decide, by decide, rfl, by decide⟩

/-- Witness for C4: only the first of the two occurrences of `ab` in `abab`
is replaced, and a dollar-free replacement is inserted literally. -/
theorem c4_witness :
    ∃ fs', replaceLines true [( "f".data, "abab".data)] ( "f".data)
        ( "<search>ab</search><replace>X</replace>".data) ( "t".data) true = .ok fs' ∧
      fsGet fs' ( "f".data) = some ( "Xab".data) := by
  obtain ⟨fs', h1, -, -, -, h4⟩ :=
    (@c4_replace_first [( "f".data, "abab".data)] ( "f".data)
      ( "<search>ab</search><replace>X</replace>".data) ( "t".data) true
      ( "ab".data) ( "X".data) ( "abab".data)
      (by decide) (by decide) (by decide)).1 [] ( "ab".data) (by decide)
  exact ⟨fs', h1, (h4 (by decide)).trans (by decide)⟩

/-! ## Lexicographic order and path-shape lemmas (for restore) -/

theorem lexLt_irrefl : ∀ x : Str, lexLt x x = false := by
  intro x
  induction x with
  | nil => rfl
  | cons c cs ih => simp [lexLt, ih]

theorem lexLt_ne {x y : Str} (h : lexLt x y = true) : x ≠ y := by
  intro hxy
  subst hxy
  rw [lexLt_irrefl] at h
  exact Bool.false_ne_true h

theorem lexLt_append (a x y : Str) : lexLt (a ++ x) (a ++ y) = lexLt x y := by
  induction a with
  | nil => rfl
  | cons c cs ih => simp [lexLt, ih]

theorem topName_no_slash (s : Str) : '/' ∉ topName s := by
  unfold topName
  intro h
  have := List.mem_takeWhile_imp h
  simp at this

theorem topName_eq_self {s : Str} (h : '/' ∉ s) : topName s = s := by
  unfold topName
  induction s with
  | nil => rfl
  | cons c cs ih =>
    have hc : c ≠ '/' := fun hx => h (by simp [hx])
    have hcs : '/' ∉ cs := fun hx => h (by simp [hx])
    simp only [List.takeWhile_cons]
    rw [if_pos (by simp [hc]), ih hcs]

theorem pre_slash {a b : Str} (h : a.isPrefixOf b = true) (hm : '/' ∈ a) : '/' ∈ b := by
  obtain ⟨t, rfl⟩ := (pre_iff a b).mp h
  exact List.mem_append.mpr (Or.inl hm)

theorem occursIn_slash {q s : Str} (h : occursIn q s = true) (hm : '/' ∈ q) : '/' ∈ s := by
  obtain ⟨u, v, rfl⟩ := occursIn_spec h
  exact List.mem_append.mpr (Or.inl (List.mem_append.mpr (Or.inr hm)))

theorem normalizePath_no_slash {p : Str} (hp : '/' ∉ p) (hbs : '\\' ∉ p) :
    '/' ∉ normalizePath p := by
  unfold normalizePath
  intro h
  obtain ⟨c, hc, hcc⟩ := List.mem_map.mp h
  by_cases hb : c = '\\'
  · exact hbs (hb ▸ hc)
  · rw [if_neg hb] at hcc
    exact hp (hcc ▸ hc)

theorem isIgnored_topLevel {p : Str} (hp : '/' ∉ p) (hbs : '\\' ∉ p) :
    isIgnored p = false := by
  unfold isIgnored
  rw [List.any_eq_false]
  intro pat _
  have hn := normalizePath_no_slash hp hbs
  cases hocc : occursIn ( '/' :: (pat ++ [ '/' ])) (normalizePath p) with
  | true => exact absurd (occursIn_slash hocc (by simp)) hn
  | false =>
    cases hpre : (pat ++ [ '/' ]).isPrefixOf (normalizePath p) with
    | true => exact absurd (pre_slash hpre (by simp)) hn
    | false => simp

theorem bakName_no_slash {p ts : Str} (hp : '/' ∉ p) (hts : '/' ∉ ts) :
    '/' ∉ bakName p ts := by
  unfold bakName
  intro h
  rcases List.mem_append.mp h with h | h
  · rcases List.mem_append.mp h with h | h
    · exact hp h
    · simp at h
  · exact hts h

theorem bakName_inj {p ta tb : Str} (h : bakName p ta = bakName p tb) : ta = tb := by
  unfold bakName at h
  have := congrArg (List.drop (p ++ ".bak.".data).length) h
  simpa [List.drop_left] using this

/-! ## Claim C3 -/

/-- Claim C3 (amended): `restoreFile` consults only the immediate entries of
the workspace root, so its backup discovery works for top-level paths.  For a
top-level path (no separator in path or timestamps): with no backups it fails
with `NoBackupFound`; and after three successive writes `v1, v2, v3` with
increasing timestamps it copies the backup with the lexicographically
greatest suffix — the one taken just before the final write — over the live
file, which then holds `v2`. -/
theorem c3_restore (p t1 t2 t3 v1 v2 v3 : Str)
    (hp : '/' ∉ p) (hbs : '\\' ∉ p)
    (ht2 : '/' ∉ t2) (ht3 : '/' ∉ t3)
    (hlex : lexLt t2 t3 = true) :
    restoreFile true [] p = .error .noBackupFound ∧
    ∃ fs1 fs2 fs3 fs4,
      writeFile true [] p v1 t1 true = .ok fs1 ∧
      writeFile true fs1 p v2 t2 true = .ok fs2 ∧
      writeFile true fs2 p v3 t3 true = .ok fs3 ∧
      restoreFile true fs3 p = .ok fs4 ∧
      fsGet fs4 p = some v2 := by
  have hig : isIgnored p = false := isIgnored_topLevel hp hbs
  have ht23 : t2 ≠ t3 := lexLt_ne hlex
  have hpbn2 : p ≠ bakName p t2 := ne_bakName p t2
  have hpbn3 : p ≠ bakName p t3 := ne_bakName p t3
  have hbn23 : bakName p t2 ≠ bakName p t3 := fun h => ht23 (bakName_inj h)
  constructor
  · rfl
  · have e1 : writeFile true [] p v1 t1 true = .ok [(p, v1)] := by
      unfold writeFile
      rw [if_neg (by simp), if_neg (by simp [hig])]
      rfl
    have hcb2 : createBackup [(p, v1)] p t2 true = [(p, v1), (bakName p t2, v1)] := by
      rw [createBackup_found (show fsGet [(p, v1)] p = some v1 by simp [fsGet]) t2]
      unfold fsSet
      rw [List.filter_cons_of_pos (by simp [hpbn2])]
      rfl
    have e2 : writeFile true [(p, v1)] p v2 t2 true =
        .ok [(bakName p t2, v1), (p, v2)] := by
      unfold writeFile
      rw [if_neg (by simp), if_neg (by simp [hig]), hcb2]
      unfold fsSet
      rw [List.filter_cons_of_neg (by simp),
        List.filter_cons_of_pos (by simp [hpbn2.symm])]
      rfl
    have hcb3 : createBackup [(bakName p t2, v1), (p, v2)] p t3 true =
        [(bakName p t2, v1), (p, v2), (bakName p t3, v2)] := by
      rw [createBackup_found
        (show fsGet [(bakName p t2, v1), (p, v2)] p = some v2 by
          simp [fsGet, hpbn2.symm]) t3]
      unfold fsSet
      rw [List.filter_cons_of_pos (by simp [hbn23]),
        List.filter_cons_of_pos (by simp [hpbn3])]
      rfl
    have e3 : writeFile true [(bakName p t2, v1), (p, v2)] p v3 t3 true =
        .ok [(bakName p t2, v1), (bakName p t3, v2), (p, v3)] := by
      unfold writeFile
      rw [if_neg (by simp), if_neg (by simp [hig]), hcb3]
      unfold fsSet
      rw [List.filter_cons_of_pos (by simp [hpbn2.symm]),
        List.filter_cons_of_neg (by simp),
        List.filter_cons_of_pos (by simp [hpbn3.symm])]
      rfl
    have hdir : readDirRoot [(bakName p t2, v1), (bakName p t3, v2), (p, v3)] =
        [bakName p t2, bakName p t3, p] := by
      unfold readDirRoot
      simp only [List.map_cons, List.map_nil]
      rw [topName_eq_self (bakName_no_slash hp ht2),
        topName_eq_self (bakName_no_slash hp ht3), topName_eq_self hp]
      rw [List.dedup_cons_of_not_mem (by simp [hbn23, hpbn2.symm]),
        List.dedup_cons_of_not_mem (by simp [hpbn3.symm]),
        List.dedup_cons_of_not_mem (by simp)]
      rfl
    have hfil : ([bakName p t2, bakName p t3, p].filter
        (fun n => (p ++ ".bak.".data).isPrefixOf n)) = [bakName p t2, bakName p t3] := by
      rw [List.filter_cons_of_pos (by simpa using bak_pre_bakName p t2),
        List.filter_cons_of_pos (by simpa using bak_pre_bakName p t3),
        List.filter_cons_of_neg (by simp [bak_notPre_self p])]
      rfl
    have hlex23 : lexLt (bakName p t2) (bakName p t3) = true := by
      unfold bakName
      rw [lexLt_append]
      exact hlex
    have hlatest : latestBak [bakName p t2, bakName p t3] = some (bakName p t3) := by
      show some (if lexLt (bakName p t2) (bakName p t3) then bakName p t3
        else bakName p t2) = some (bakName p t3)
      simp [hlex23]
    have hrestore : restoreFile true [(bakName p t2, v1), (bakName p t3, v2), (p, v3)] p =
        .ok (fsSet [(bakName p t2, v1), (bakName p t3, v2), (p, v3)] p v2) := by
      unfold restoreFile
      rw [if_neg (by simp), hdir, hfil, hlatest]
      dsimp only []
      rw [show fsGet [(bakName p t2, v1), (bakName p t3, v2), (p, v3)] (bakName p t3) =
        some v2 by simp [fsGet, hbn23]]
    exact ⟨[(p, v1)], [(bakName p t2, v1), (p, v2)],
      [(bakName p t2, v1), (bakName p t3, v2), (p, v3)],
      fsSet [(bakName p t2, v1), (bakName p t3, v2), (p, v3)] p v2,
      e1, e2, e3, hrestore, fsGet_set_self _ _ _⟩

/-- Claim C3, counterexample: the source lists only the root directory's
immediate entries, so for a nested path the backups are simply not found:
with a backup `src/a.bak.t1` present (and the live file too), `restoreFile
"src/a"` fails with `NoBackupFound` instead of restoring from it. -/
theorem c3_counterexample :
    backups [( "src/a.bak.t1".data, "v1".data), ( "src/a".data, "v2".data)]
        ( "src/a".data) =
      [( "src/a.bak.t1".data, "v1".data)] ∧
    restoreFile true [( "src/a.bak.t1".data, "v1".data), ( "src/a".data, "v2".data)]
        ( "src/a".data) =
      .error .noBackupFound :=
  ⟨by decide, rfl⟩

/-- Witness for C3 with concrete path, timestamps and contents. -/
theorem c3_witness :
    restoreFile true [] ( "a.txt".data) = .error .noBackupFound ∧
    ∃ fs1 fs2 fs3 fs4,
      writeFile true [] ( "a.txt".data) ( "v1".data) ( "t1".data) true = .ok fs1 ∧
      writeFile true fs1 ( "a.txt".data) ( "v2".data) ( "t2".data) true = .ok fs2 ∧
      writeFile true fs2 ( "a.txt".data) ( "v3".data) ( "t3".data) true = .ok fs3 ∧
      restoreFile true fs3 ( "a.txt".data) = .ok fs4 ∧
      fsGet fs4 ( "a.txt".data) = some ( "v2".data) :=
  c3_restore ( "a.txt".data) ( "t1".data) ( "t2".data) ( "t3".data)
    ( "v1".data) ( "v2".data) ( "v3".data)
    (by decide) (by decide) (by decide) (by decide) (by decide)

/-! ## Claim C10 -/

/-- Claim C10, counterexample: `restoreFile` on a path inside an ignored
directory does not fail with `AccessDenied` — but neither does it restore:
with a backup of `node_modules/x` present in the filesystem it fails with
`NoBackupFound`, because backup discovery scans only the root directory's
immediate entries and a nested path can never match.  This refutes the
"will ... restore the file" half of the claim. -/
theorem c10_counterexample :
    backups [( "node_modules/x.bak.t1".data, "v".data)] ( "node_modules/x".data) =
      [( "node_modules/x.bak.t1".data, "v".data)] ∧
    isIgnored ( "node_modules/x".data) = true ∧
    restoreFile true [( "node_modules/x.bak.t1".data, "v".data)]
        ( "node_modules/x".data) =
      .error .noBackupFound :=
  ⟨by decide, by decide, rfl⟩

/-- Claim C10 (amended): `replaceLines` and `restoreFile` perform no
ignored-path check and never fail with `AccessDenied`, for any path and any
filesystem; `replaceLines` on a path inside an ignored directory still
reads, backs up and rewrites the file exactly as on any other path; but
`restoreFile` — although it, too, never denies access — fails with
`NoBackupFound` on every path containing a separator (every ignored path
does), even when backups exist, because it inspects only the workspace
root's immediate entries. -/
theorem c10_no_ignore_check :
    (∀ (ws : Bool) (fs : Fs) (p content ts : Str) (bakOk : Bool),
      replaceLines ws fs p content ts bakOk ≠ .error .accessDenied) ∧
    (∀ (ws : Bool) (fs : Fs) (p : Str), restoreFile ws fs p ≠ .error .accessDenied) ∧
    (∀ (fs : Fs) (p content ts : Str) (bakOk : Bool)
        (search repl orig pre rest : Str),
      isIgnored p = true →
      matchTagged ( "<search>".data) ( "</search>".data) content = some search →
      matchTagged ( "<replace>".data) ( "</replace>".data) content = some repl →
      fsGet fs p = some orig →
      splitAtFirst search orig = some (pre, rest) →
      replaceLines true fs p content ts bakOk =
        .ok (fsSet (createBackup fs p ts bakOk) p
          (pre ++ getSubstitution search pre rest repl ++ rest))) ∧
    (∀ p : Str, '/' ∈ p → ∀ fs : Fs, restoreFile true fs p = .error .noBackupFound) := by
  refine ⟨?_, ?_, ?_, ?_⟩
  · intro ws fs p content ts bakOk h
    unfold replaceLines at h
    split at h
    · simp at h
    · split at h
      · split at h
        · simp at h
        · split at h
          · simp at h
          · simp at h
      · simp at h
  · intro ws fs p h
    unfold restoreFile at h
    split at h
    · simp at h
    · split at h
      · simp at h
      · split at h
        · simp at h
        · simp at h
  · intro fs p content ts bakOk search repl orig pre rest _ hs hr hget hsplit
    exact replaceLines_ok fs p content ts bakOk hs hr hget hsplit
  · intro p hp fs
    unfold restoreFile
    rw [if_neg (by simp)]
    have hfil : (readDirRoot fs).filter
        (fun n => (p ++ ".bak.".data).isPrefixOf n) = [] := by
      rw [List.filter_eq_nil_iff]
      intro n hn hpre2
      have hslash : '/' ∉ n := by
        unfold readDirRoot at hn
        obtain ⟨e, -, rfl⟩ := List.mem_map.mp (List.mem_dedup.mp hn)
        exact topName_no_slash e.1
      exact hslash (pre_slash (by simpa using hpre2)
        (List.mem_append.mpr (Or.inl hp)))
    rw [hfil]
    rfl

/-- Witness for C10: the access-denial-free behaviour on the ignored path
`node_modules/x` — `replaceLines` proceeds and rewrites, `restoreFile` on a
nested path reports `NoBackupFound` (never `AccessDenied`). -/
theorem c10_witness :
    replaceLines true [( "node_modules/x".data, "ab".data)] ( "node_modules/x".data)
        ( "<search>a</search><replace>Z</replace>".data) ( "t".data) true =
      .ok (fsSet (createBackup [( "node_modules/x".data, "ab".data)]
          ( "node_modules/x".data) ( "t".data) true) ( "node_modules/x".data)
        ( [] ++ getSubstitution ( "a".data) [] ( "b".data) ( "Z".data) ++ "b".data)) ∧
    restoreFile true [] ( "node_modules/x".data) = .error .noBackupFound :=
  ⟨(c10_no_ignore_check).2.2.1 [( "node_modules/x".data, "ab".data)]
      ( "node_modules/x".data) ( "<search>a</search><replace>Z</replace>".data)
      ( "t".data) true ( "a".data) ( "Z".data) ( "ab".data) [] ( "b".data)
      (by decide) (by decide) (by decide) (by decide) (by decide),
    (c10_no_ignore_check).2.2.2 ( "node_modules/x".data) (by decide) []⟩

/-! ## Claim C7 -/

theorem agentLoop_count_le (env : Env) :
    ∀ (n : Nat) (fs : Fs) (hist : List Msg) (tsIdx : Nat),
    (agentLoop env n fs hist tsIdx).2.2 ≤ n := by
  intro n
  induction n with
  | zero => intro fs hist tsIdx; simp [agentLoop]
  | succ k ih =>
    intro fs hist tsIdx
    by_cases hd : (scanTools (env.model hist)).1.isEmpty
    · simp [agentLoop, hd]
    · simp only [agentLoop, hd, Bool.false_eq_true, if_false]
      exact Nat.succ_le_succ (ih _ _ _)

theorem agentLoop_count_eq (env : Env)
    (h : ∀ hist : List Msg, (scanTools (env.model hist)).1 ≠ []) :
    ∀ (n : Nat) (fs : Fs) (hist : List Msg) (tsIdx : Nat),
    (agentLoop env n fs hist tsIdx).2.2 = n := by
  intro n
  induction n with
  | zero => intro fs hist tsIdx; simp [agentLoop]
  | succ k ih =>
    intro fs hist tsIdx
    have hd : (scanTools (env.model hist)).1.isEmpty = false := by
      cases hl : (scanTools (env.model hist)).1 with
      | nil => exact absurd hl (h hist)
      | cons a l => rfl
    simp only [agentLoop, hd, Bool.false_eq_true, if_false]
    rw [ih]

theorem agentLoop_one (env : Env) (n : Nat) (fs : Fs) (hist : List Msg)
    (tsIdx : Nat) (h : (scanTools (env.model hist)).1 = []) :
    (agentLoop env (n + 1) fs hist tsIdx).2.2 = 1 := by
  simp [agentLoop, h]

/-- Claim C7: one user turn performs at most `maxLoops = 10` iterations; a
model whose every reply contains at least one directive block drives the
loop to exactly 10 iterations before it stops, and a model whose first reply
contains no directive block gives exactly one iteration. -/
theorem c7_loop_termination (env : Env) (fs : Fs) (hist : List Msg) (u : Str) :
    (handleMessage env fs hist u).2.2 ≤ maxLoops ∧
    ((∀ h : List Msg, (scanTools (env.model h)).1 ≠ []) →
      (handleMessage env fs hist u).2.2 = maxLoops) ∧
    ((scanTools (env.model (hist ++ [⟨ "User".data, u⟩]))).1 = [] →
      (handleMessage env fs hist u).2.2 = 1) := by
  refine ⟨agentLoop_count_le env maxLoops fs _ 0, ?_, ?_⟩
  · intro h
    exact agentLoop_count_eq env h maxLoops fs _ 0
  · intro h
    have h10 : maxLoops = 9 + 1 := rfl
    unfold handleMessage
    rw [h10]
    exact agentLoop_one env 9 fs _ 0 h

/-- Witness for C7: a scripted model that always emits one `list_files`
directive runs exactly 10 iterations; a model that answers plain text runs
exactly one. -/
theorem c7_witness :
    (handleMessage ⟨fun _ => "<tool code=\"list_files\"></tool>".data,
        fun _ => (none, [], []), fun _ => [], true⟩ [] [] ( "go".data)).2.2 =
      maxLoops ∧
    (handleMessage ⟨fun _ => "done".data,
        fun _ => (none, [], []), fun _ => [], true⟩ [] [] ( "go".data)).2.2 = 1 ∧
    (handleMessage ⟨fun _ => "done".data,
        fun _ => (none, [], []), fun _ => [], true⟩ [] [] ( "go".data)).2.2 ≤
      maxLoops :=
  ⟨(c7_loop_termination ⟨fun _ => "<tool code=\"list_files\"></tool>".data,
      fun _ => (none, [], []), fun _ => [], true⟩ [] [] ( "go".data)).2.1
      (fun _ => (by decide :
        (scanTools ( "<tool code=\"list_files\"></tool>".data)).1 ≠ [])),
    (c7_loop_termination ⟨fun _ => "done".data,
      fun _ => (none, [], []), fun _ => [], true⟩ [] [] ( "go".data)).2.2
      (by decide),
    (c7_loop_termination ⟨fun _ => "done".data,
      fun _ => (none, [], []), fun _ => [], true⟩ [] [] ( "go".data)).1⟩
